import Mathlib

/-!
Verification of the clang-callgraph core (`src/clang_callgraph/__init__.py`)
against its natural-language specification.

Modelling conventions:
* A clang cursor is embedded as the list of frames along its
  `semantic_parent` chain, innermost (the cursor itself) first.  The Python
  value `None` is embedded as the empty list; `c.semantic_parent` is the tail
  of the chain.  Each frame carries the cursor attributes the program reads:
  `kind`, `spelling`, `displayname`, the virtual-method flags and the name of
  the file of `extent.start` (none when the extent has no file).
* Python `defaultdict(list)` dictionaries (`CALLGRAPH`, `REFGRAPH`) are
  embedded as insertion-ordered association lists from keys to value lists;
  a missing key reads as the empty list.
* The recursive traversal procedures (`print_calls`, `print_refs`,
  `filter_calls`, `ignore_calls`) take an explicit fuel argument and return
  `none` when the fuel runs out; termination theorems show sufficient fuel
  exists.  Their mutable `(g_buffer, so_far)` state is threaded explicitly.
* Terminal colouring (`pygments.highlight`, an external collaborator that the
  spec puts out of scope) is embedded as the identity on the rendered string.
-/

inductive CursorKind where
  | translation_unit
  | function_decl
  | cxx_method
  | function_template
  | call_expr
  | other
deriving DecidableEq, Repr

/-- One frame of a cursor's `semantic_parent` chain: the cursor attributes
read by the program. -/
structure CFrame where
  kind : CursorKind
  spelling : String
  displayname : String
  is_virtual_method : Bool
  is_pure_virtual_method : Bool
  fileName : Option String
deriving DecidableEq, Repr

/-- A cursor, embedded as its `semantic_parent` chain (itself first);
`[]` embeds the Python value `None`. -/
abbrev Cursor := List CFrame

/-- The `displayname` attribute of a cursor (the unqualified signature). -/
def cursor_displayname : Cursor → String
  | [] => ""
  | f :: _ => f.displayname

/-- The `extent.start.file` attribute (its name) of a cursor. -/
def cursor_file : Cursor → Option String
  | [] => none
  | f :: _ => f.fileName

/-- `fully_qualified` (lines 100-109): `::`-joined ancestor spellings, `''`
at `None` and at the translation-unit root. -/
def fully_qualified : Cursor → String
  | [] => ""
  | f :: rest =>
    if f.kind = CursorKind.translation_unit then ""
    else
      let res := fully_qualified rest
      if res ≠ "" then res ++ "::" ++ f.spelling else f.spelling

/-- `fully_qualified_pretty` (lines 112-121): qualifies the cursor's own
`displayname` by `fully_qualified` of its semantic parent. -/
def fully_qualified_pretty : Cursor → String
  | [] => ""
  | f :: rest =>
    if f.kind = CursorKind.translation_unit then ""
    else
      let res := fully_qualified rest
      if res ≠ "" then res ++ "::" ++ f.displayname else f.displayname

/-- Modelled from the spec: the spec's description of `display_name` as "the
same recursion but using each ancestor's full signature" — the ancestor
recursion itself carried out on `displayname`.  Kept only to compare with
`fully_qualified_pretty`, the definition translated from the source. -/
def display_name_per_spec : Cursor → String
  | [] => ""
  | f :: rest =>
    if f.kind = CursorKind.translation_unit then ""
    else
      let res := display_name_per_spec rest
      if res ≠ "" then res ++ "::" ++ f.displayname else f.displayname

/-- `is_virtual_method()` of the head cursor. -/
def cursor_is_virtual : Cursor → Bool
  | [] => false
  | f :: _ => f.is_virtual_method

/-- `is_pure_virtual_method()` of the head cursor. -/
def cursor_is_pure_virtual : Cursor → Bool
  | [] => false
  | f :: _ => f.is_pure_virtual_method

/-- `pretty_print` (lines 167-173): the display string with the trailing
virtual / pure-virtual annotation; the pure-virtual check runs second and
overwrites. -/
def pretty_print (n : Cursor) : String :=
  let v : String := ""
  let v : String := if cursor_is_virtual n then " virtual" else v
  let v : String := if cursor_is_pure_virtual n then " = 0" else v
  fully_qualified_pretty n ++ v

/-- Python's `str.startswith` test. -/
def strStartsWith (s pre : String) : Bool :=
  List.isPrefixOf pre.data s.data

/-- `is_excluded` (lines 124-138): nodes without a source file return early;
otherwise path prefixes are checked first, then name prefixes against
`fully_qualified_pretty`. -/
def is_excluded (node : Cursor) (xfiles xprefs : List String) : Bool :=
  match cursor_file node with
  | none => false
  | some fname =>
    if xfiles.any (fun xf => strStartsWith fname xf) then true
    else if xprefs.any (fun xp => strStartsWith (fully_qualified_pretty node) xp) then true
    else false

/-- Python's substring test `needle in hay`. -/
def strContains (hay needle : String) : Bool :=
  (List.range (hay.data.length + 1)).any (fun i => List.isPrefixOf needle.data (hay.data.drop i))

/-- Insertion-ordered association-list read, defaulting to `[]` like a
`defaultdict(list)`. -/
def assocGet {α : Type} : List (String × List α) → String → List α
  | [], _ => []
  | (k2, l) :: rest, k => if k2 = k then l else assocGet rest k

/-- Key-membership test of the dictionary (`key in d`). -/
def gMem {α : Type} (g : List (String × List α)) (k : String) : Bool :=
  g.any (fun p => p.1 = k)

/-- `d[k].append(v)` on a `defaultdict(list)`: creates the entry at the end
when absent, appends in place when present. -/
def assocAppend {α : Type} : List (String × List α) → String → α → List (String × List α)
  | [], k, v => [(k, [v])]
  | (k2, l) :: rest, k, v =>
    if k2 = k then (k2, l ++ [v]) :: rest else (k2, l) :: assocAppend rest k v

/-- The `CALLGRAPH[cur_pretty].append(node.referenced)` update of
`show_info` (line 161). -/
def add_call_edge (cg : List (String × List Cursor)) (caller : String) (callee : Cursor) :
    List (String × List Cursor) :=
  assocAppend cg caller callee

/-- The guarded `REFGRAPH[ref_pretty].append(cur_pretty)` update of
`show_info` (lines 159-160). -/
def add_reference_edge (rg : List (String × List String)) (callee caller : String) :
    List (String × List String) :=
  if caller ∈ assocGet rg callee then rg else assocAppend rg callee caller

/-- `'\033[033m'`. -/
def ctrl_yellow : String := "\x1b[033m"

/-- `'\033[032m'`. -/
def ctrl_green : String := "\x1b[032m"

/-- `'\033[031m'`. -/
def ctrl_red : String := "\x1b[031m"

/-- `'\033[0m'`. -/
def ctrl_reset : String := "\x1b[0m"

/-- Python string repetition `s * n`. -/
def repeatStr (s : String) : Nat → String
  | 0 => ""
  | n + 1 => s ++ repeatStr s n

/-- `code_color_pretty` (lines 176-179).  The pygments terminal highlighter is
an external collaborator the spec places out of scope; it is embedded as the
identity on the rendered string. -/
def code_color_pretty (code : String) : String := code

/-- The marker appended at the hard depth limit. -/
def tooDeepMarker : String := "...<too deep>..."

/-- One rendered call-graph edge line at a given depth (the f-string of
lines 207, 228 and 266). -/
def renderCallLine (depth : Nat) (f : Cursor) : String :=
  repeatStr (ctrl_green ++ "|" ++ ctrl_reset ++ "  ") depth ++
    ctrl_green ++ "|--" ++ ctrl_reset ++ code_color_pretty (pretty_print f)

/-- One rendered reference-graph edge line at a given depth (the f-string of
line 191). -/
def renderRefLine (depth : Nat) (f : String) : String :=
  repeatStr (ctrl_red ++ "|" ++ ctrl_reset ++ "  ") depth ++
    ctrl_red ++ "|--" ++ ctrl_reset ++ code_color_pretty f

/-- The `(g_buffer, so_far)` state threaded through `print_calls` and
`ignore_calls`. -/
abbrev TravSt := List String × List Cursor

/-- The `(g_buffer, so_far)` state of `print_refs` (its visited entries are
strings). -/
abbrev RefSt := List String × List String

/-- The `(g_buffer, call_stack, so_far)` state of `filter_calls`. -/
abbrev FiltSt := List String × List String × List Cursor

/-- The `for f in CALLGRAPH[fun_name]` loop body of `print_calls`
(lines 205-215); `rec` is the recursive call at `depth + 1`. -/
def callsLoop (g : List (String × List Cursor))
    (rec : String → TravSt → Nat → Option TravSt) :
    List Cursor → TravSt → Nat → Option TravSt
  | [], st, _ => some st
  | f :: rest, (buf, vis), depth =>
    let buf2 := buf ++ [renderCallLine depth f]
    if f ∈ vis then callsLoop g rec rest (buf2, vis) depth
    else
      let vis2 := vis ++ [f]
      let key := if gMem g (fully_qualified_pretty f) then fully_qualified_pretty f
                 else fully_qualified f
      match rec key (buf2, vis2) (depth + 1) with
      | none => none
      | some st2 => callsLoop g rec rest st2 depth

/-- `print_calls` (lines 198-215), with explicit fuel (`none` when the fuel
runs out) and the `(g_print_depth, g_max_print_depth)` globals as the
`soft`/`hard` arguments. -/
def print_calls (g : List (String × List Cursor)) (soft hard : Nat) :
    Nat → String → TravSt → Nat → Option TravSt
  | 0, _, _, _ => none
  | fuel + 1, fun_name, st, depth =>
    if soft ≤ depth then some st
    else if hard ≤ depth then some (st.1 ++ [tooDeepMarker], st.2)
    else if gMem g fun_name then
      callsLoop g (print_calls g soft hard fuel) (assocGet g fun_name) st depth
    else some st

/-- The `for f in REFGRAPH[fun_name]` loop body of `print_refs`
(lines 189-196). -/
def refsLoop (rg : List (String × List String))
    (rec : String → RefSt → Nat → Option RefSt) :
    List String → RefSt → Nat → Option RefSt
  | [], st, _ => some st
  | f :: rest, (buf, vis), depth =>
    let buf2 := buf ++ [renderRefLine depth f]
    if f ∈ vis then refsLoop rg rec rest (buf2, vis) depth
    else
      let vis2 := vis ++ [f]
      if gMem rg f then
        match rec f (buf2, vis2) (depth + 1) with
        | none => none
        | some st2 => refsLoop rg rec rest st2 depth
      else refsLoop rg rec rest (buf2, vis2) depth

/-- `print_refs` (lines 182-196), with explicit fuel. -/
def print_refs (rg : List (String × List String)) (soft hard : Nat) :
    Nat → String → RefSt → Nat → Option RefSt
  | 0, _, _, _ => none
  | fuel + 1, fun_name, st, depth =>
    if soft ≤ depth then some st
    else if hard ≤ depth then some (st.1 ++ [tooDeepMarker], st.2)
    else if gMem rg fun_name then
      refsLoop rg (print_refs rg soft hard fuel) (assocGet rg fun_name) st depth
    else some st

/-- The substring test a node's `displayname` undergoes against a keyword
set (`kw in f.displayname`, lines 232 and 259). -/
def hitKeyword (kws : List String) (f : Cursor) : Bool :=
  kws.any (fun kw => strContains (cursor_displayname f) kw)

/-- The `for f in CALLGRAPH[func_name]` loop body of `filter_calls`
(lines 226-245): push the line, flush the whole stack on a keyword match,
pop on leaving. -/
def filterLoop (g : List (String × List Cursor)) (fs : List String)
    (rec : String → FiltSt → Nat → Option FiltSt) :
    List Cursor → FiltSt → Nat → Option FiltSt
  | [], st, _ => some st
  | f :: rest, (buf, stack, vis), depth =>
    let stack2 := stack ++ [renderCallLine depth f]
    let buf2 := if hitKeyword fs f then buf ++ stack2 else buf
    if f ∈ vis then filterLoop g fs rec rest (buf2, stack2.dropLast, vis) depth
    else
      let vis2 := vis ++ [f]
      let key := if gMem g (fully_qualified_pretty f) then fully_qualified_pretty f
                 else fully_qualified f
      match rec key (buf2, stack2, vis2) (depth + 1) with
      | none => none
      | some st2 => filterLoop g fs rec rest (st2.1, st2.2.1.dropLast, st2.2.2) depth

/-- `filter_calls` (lines 218-245), with explicit fuel and the
`g_filter_set` global as the `fs` argument. -/
def filter_calls (g : List (String × List Cursor)) (fs : List String) (soft hard : Nat) :
    Nat → String → FiltSt → Nat → Option FiltSt
  | 0, _, _, _ => none
  | fuel + 1, func_name, st, depth =>
    if soft ≤ depth then some st
    else if hard ≤ depth then some (st.1 ++ [tooDeepMarker], st.2)
    else if gMem g func_name then
      filterLoop g fs (filter_calls g fs soft hard fuel) (assocGet g func_name) st depth
    else some st

/-- The `for f in CALLGRAPH[func_name]` loop body of `ignore_calls`
(lines 256-275): a keyword hit skips the node entirely. -/
def ignoreLoop (g : List (String × List Cursor)) (ig : List String)
    (rec : String → TravSt → Nat → Option TravSt) :
    List Cursor → TravSt → Nat → Option TravSt
  | [], st, _ => some st
  | f :: rest, (buf, vis), depth =>
    if hitKeyword ig f then ignoreLoop g ig rec rest (buf, vis) depth
    else
      let buf2 := buf ++ [renderCallLine depth f]
      if f ∈ vis then ignoreLoop g ig rec rest (buf2, vis) depth
      else
        let vis2 := vis ++ [f]
        let key := if gMem g (fully_qualified_pretty f) then fully_qualified_pretty f
                   else fully_qualified f
        match rec key (buf2, vis2) (depth + 1) with
        | none => none
        | some st2 => ignoreLoop g ig rec rest st2 depth

/-- `ignore_calls` (lines 248-275), with explicit fuel and the
`g_ignore_set` global as the `ig` argument. -/
def ignore_calls (g : List (String × List Cursor)) (ig : List String) (soft hard : Nat) :
    Nat → String → TravSt → Nat → Option TravSt
  | 0, _, _, _ => none
  | fuel + 1, func_name, st, depth =>
    if soft ≤ depth then some st
    else if hard ≤ depth then some (st.1 ++ [tooDeepMarker], st.2)
    else if gMem g func_name then
      ignoreLoop g ig (ignore_calls g ig soft hard fuel) (assocGet g func_name) st depth
    else some st

/-- The `@ depth n` branch of `ask_and_print_callgraph` (lines 484-490):
returns the new `g_print_depth` and whether the usage message was printed.
Python integers are unbounded, so the parsed argument is an `Int`. -/
def depth_command (g_print_depth g_max_print_depth : Int) (n : Int) : Int × Bool :=
  if n ≤ 0 ∨ n ≥ g_max_print_depth then (g_print_depth, true)
  else (n, false)

/-- `keep_arg` (lines 355-356). -/
def keep_arg (x : String) : Bool :=
  strStartsWith x "-I" || strStartsWith x "-std=" || strStartsWith x "-D"

/-- The argument list handed to `index.parse` for one compilation-database
entry (line 375): the entry's arguments filtered by `keep_arg`, then the
user-supplied clang arguments. -/
def build_parse_args (arguments clang_args : List String) : List String :=
  arguments.filter keep_arg ++ clang_args

/-- The `[total lines: n]` summary line of `buffer_flush` (line 79),
computed from the buffer length before the line itself is appended. -/
def lenMsg (n : Nat) : String :=
  ctrl_green ++ "[total lines: " ++ toString n ++ "]" ++ ctrl_reset

/-- `buffer_flush` (lines 77-84): returns the printed lines and the cleared
buffer. -/
def buffer_flush (need_len_info : Bool) (buf : List String) : List String × List String :=
  let buf2 := if need_len_info then buf ++ [lenMsg buf.length] else buf
  (buf2, [])

/-- One observable event of a query's execution inside the `try` block of
`ask_and_print_callgraph`: a `buffer_append` or a raised exception. -/
inductive QEvent where
  | append (s : String)
  | fault
deriving DecidableEq, Repr

/-- Runs the query body's buffer events up to the first raised exception;
returns the buffer and whether an exception escaped. -/
def run_events : List QEvent → List String → List String × Bool
  | [], buf => (buf, false)
  | QEvent.append s :: rest, buf => run_events rest (buf ++ [s])
  | QEvent.fault :: _, buf => (buf, true)

/-- The buffer discipline of one query in `ask_and_print_callgraph`
(lines 448-524): the body appends rendered lines; on success the query ends
in `buffer_flush(True)` (line 397/415/423/431), on an exception the handler
runs `buffer_clear()` (line 523).  Returns the lines printed for the query
and the final buffer. -/
def ask_and_print_callgraph (events : List QEvent) (buf : List String) :
    List String × List String :=
  let res := run_events events buf
  if res.2 then ([], [])
  else buffer_flush true res.1

/-- The configuration dictionary assembled by `read_args`. -/
structure Cfg where
  db : Option String
  clang_args : List String
  excluded_prefs : List String
  excluded_paths : List String
  config_filename : String
  lookup : String
  library_path : String
deriving DecidableEq, Repr

/-- The scanning loop of `read_args` (lines 304-325); `none` embeds the
`IndexError` raised when a flag lacks its value or an argument is the empty
string. -/
def read_args_loop : List String → Cfg → Option Cfg
  | [], cfg => some cfg
  | a :: rest, cfg =>
    if a = "-x" then
      match rest with
      | [] => none
      | v :: rest2 =>
        read_args_loop rest2 { cfg with excluded_prefs := cfg.excluded_prefs ++ v.splitOn "," }
    else if a = "-p" then
      match rest with
      | [] => none
      | v :: rest2 =>
        read_args_loop rest2 { cfg with excluded_paths := cfg.excluded_paths ++ v.splitOn "," }
    else if a = "--cfg" then
      match rest with
      | [] => none
      | v :: rest2 => read_args_loop rest2 { cfg with config_filename := v }
    else if a = "--lookup" then
      match rest with
      | [] => none
      | v :: rest2 => read_args_loop rest2 { cfg with lookup := v }
    else if a = "--library_path" then
      match rest with
      | [] => none
      | v :: rest2 => read_args_loop rest2 { cfg with library_path := v }
    else
      match a.data with
      | [] => none
      | c :: _ =>
        if c = '-' then read_args_loop rest { cfg with clang_args := cfg.clang_args ++ [a] }
        else read_args_loop rest { cfg with db := some a }

/-- `read_args` (lines 296-343); `cwd_has_db` embeds the
`os.path.exists('compile_commands.json')` probe. -/
def read_args (cwd_has_db : Bool) (args : List String) : Option Cfg :=
  match read_args_loop args ⟨none, [], [], [], "", "", ""⟩ with
  | none => none
  | some cfg =>
    let cfg := if cfg.excluded_paths = [] then
        { cfg with excluded_paths := cfg.excluded_paths ++ ["/usr"] } else cfg
    let cfg := if cfg.db = none && cwd_has_db then
        { cfg with db := some "compile_commands.json" } else cfg
    some cfg

/-- A synthesized declaration with no source file whose display name starts
with `std` (input for the exclusion-policy claims). -/
def noFileNode : Cursor :=
  [⟨CursorKind.function_decl, "stdfoo", "stdfoo", false, false, none⟩]

/-- A method nested in a function whose full signature differs from its bare
spelling (input for the naming claims). -/
def nestedNode : Cursor :=
  [⟨CursorKind.cxx_method, "n", "n(int)", false, false, some "/a.c"⟩,
   ⟨CursorKind.function_decl, "g", "g(int)", false, false, some "/a.c"⟩]

/-- A declaration inside namespace `ns` (input for the ignore-keyword
claims): its qualified display name contains `ns::` but its own
`displayname` does not. -/
def nsNode : Cursor :=
  [⟨CursorKind.function_decl, "foo", "foo(int)", false, false, some "/a.c"⟩,
   ⟨CursorKind.other, "ns", "ns", false, false, some "/a.c"⟩]

/-- A declaration whose `displayname` avoids every ignore keyword used in
the examples. -/
def okNode : Cursor :=
  [⟨CursorKind.function_decl, "good", "good()", false, false, some "/a.c"⟩]

/-- A declaration whose `displayname` contains the ignore keyword `bad`. -/
def badNode : Cursor :=
  [⟨CursorKind.function_decl, "bad", "bad()", false, false, some "/a.c"⟩]

/-- The i-th node of a 16-edge call chain. -/
def chainNode (i : Nat) : Cursor :=
  [⟨CursorKind.function_decl, "f" ++ toString i, "f" ++ toString i, false, false, some "/c.c"⟩]

/-- A 16-edge call chain `f0 -> f1 -> ... -> f16`, deeper than the default
depth limits. -/
def chainGraph : List (String × List Cursor) :=
  (List.range 16).map (fun i => ("f" ++ toString i, [chainNode (i + 1)]))

/-- A two-node cyclic call graph: `A` calls `B` and `B` calls `A`. -/
def cycleGraph : List (String × List Cursor) :=
  [("A", [[⟨CursorKind.function_decl, "B", "B", false, false, some "/a.c"⟩]]),
   ("B", [[⟨CursorKind.function_decl, "A", "A", false, false, some "/a.c"⟩]])]

-- sanity checks of the embedding on concrete values
example : fully_qualified nsNode = "ns::foo" := by decide
example : fully_qualified_pretty nsNode = "ns::foo(int)" := by decide
example : strContains "foo(int)" "o(i" = true := by decide
example : strContains "foo" "" = true := by decide
example : strContains "foo" "bar" = false := by decide
example :
    (print_calls cycleGraph 15 15 16 "A" ([], []) 0).map
      (fun st => (st.1.length, st.2.length)) = some (3, 2) := by
  decide

/-! ## Helper lemmas -/

theorem assocGet_assocAppend {α : Type} (g : List (String × List α)) (k : String) (v : α) :
    assocGet (assocAppend g k v) k = assocGet g k ++ [v] := by
  induction g with
  | nil => simp [assocAppend, assocGet]
  | cons p rest ih =>
    obtain ⟨k2, l⟩ := p
    by_cases h : k2 = k
    · simp [assocAppend, assocGet, h]
    · simp [assocAppend, assocGet, h, ih]

/-! ## Claim C1 -/

/-- Claim C1, counterexample: a node with no known source file whose display
name starts with the configured name prefix `std` is nonetheless not
excluded — `is_excluded` returns early before the name-prefix rule. -/
theorem claim1_counterexample :
    is_excluded noFileNode ["/usr"] ["std"] = false
    ∧ strStartsWith (fully_qualified_pretty noFileNode) "std" = true := by
  decide

/-- Claim C1 as amended: a node with no known declaring source file is never
excluded at all — `is_excluded` returns `False` before either the
path-prefix or the name-prefix rule is evaluated. -/
theorem claim1_amended (node : Cursor) (xfiles xprefs : List String)
    (h : cursor_file node = none) :
    is_excluded node xfiles xprefs = false := by
  unfold is_excluded
  rw [h]

/-- Witness for `claim1_amended` at a concrete synthesized node. -/
theorem claim1_witness :
    cursor_file noFileNode = none
    ∧ is_excluded noFileNode ["/usr"] ["std"] = false :=
  ⟨by decide, claim1_amended noFileNode ["/usr"] ["std"] (by decide)⟩

/-! ## Claim C2 -/

/-- Claim C2, counterexample: `display_name` does not use each ancestor's
full signature — on a method nested in `g(int)` the source's
`fully_qualified_pretty` qualifies with the ancestor's bare spelling `g`,
not with the signature `g(int)` the spec's recursion would produce. -/
theorem claim2_counterexample :
    fully_qualified_pretty nestedNode = "g::n(int)"
    ∧ display_name_per_spec nestedNode = "g(int)::n(int)" := by
  decide

/-- Claim C2 as amended: `display_name` qualifies by the same ancestor
recursion as `canonical_key` computed over ancestor bare spellings; only the
node itself contributes its full signature, the virtual / pure-virtual
suffix is appended afterwards (pure virtual wins), and the empty string is
returned for a null node or the translation-unit root. -/
theorem claim2_amended (f : CFrame) (rest : Cursor) (n : Cursor)
    (h : f.kind ≠ CursorKind.translation_unit) :
    fully_qualified_pretty (f :: rest)
      = (if fully_qualified rest = "" then f.displayname
         else fully_qualified rest ++ "::" ++ f.displayname)
    ∧ fully_qualified (f :: rest)
      = (if fully_qualified rest = "" then f.spelling
         else fully_qualified rest ++ "::" ++ f.spelling)
    ∧ pretty_print n
      = fully_qualified_pretty n
        ++ (if cursor_is_pure_virtual n then " = 0"
            else if cursor_is_virtual n then " virtual" else "")
    ∧ fully_qualified_pretty ([] : Cursor) = ""
    ∧ (∀ (f2 : CFrame) (rest2 : Cursor), f2.kind = CursorKind.translation_unit →
        fully_qualified_pretty (f2 :: rest2) = "") := by
  refine ⟨?_, ?_, ?_, rfl, ?_⟩
  · simp only [fully_qualified_pretty, if_neg h]
    by_cases hr : fully_qualified rest = "" <;> simp [hr]
  · simp only [fully_qualified, if_neg h]
    by_cases hr : fully_qualified rest = "" <;> simp [hr]
  · unfold pretty_print
    by_cases hp : cursor_is_pure_virtual n = true <;>
      by_cases hv : cursor_is_virtual n = true <;>
      simp [hp, hv]
  · intro f2 rest2 h2
    simp [fully_qualified_pretty, h2]

/-- Witness for `claim2_amended` at a concrete nested virtual method. -/
theorem claim2_witness :
    (⟨CursorKind.cxx_method, "n", "n(int)", false, false, some "/a.c"⟩ : CFrame).kind
        ≠ CursorKind.translation_unit
    ∧ fully_qualified_pretty nestedNode
      = (if fully_qualified [⟨CursorKind.function_decl, "g", "g(int)", false, false, some "/a.c"⟩] = ""
         then "n(int)"
         else fully_qualified [⟨CursorKind.function_decl, "g", "g(int)", false, false, some "/a.c"⟩]
              ++ "::" ++ "n(int)") := by
  refine ⟨by decide, ?_⟩
  exact (claim2_amended
    ⟨CursorKind.cxx_method, "n", "n(int)", false, false, some "/a.c"⟩
    [⟨CursorKind.function_decl, "g", "g(int)", false, false, some "/a.c"⟩]
    nestedNode (by decide)).1

/-! ## Claim C3 -/

/-- Claim C3: recording the same reference edge twice leaves the callee's
reference list unchanged after the first addition (which appends at the end,
preserving insertion order), while recording the same call edge `n` times
appends exactly `n` entries to the caller's list. -/
theorem claim3_edge_semantics (rg : List (String × List String)) (callee caller : String)
    (cg : List (String × List Cursor)) (key : String) (v : Cursor) (n : Nat) :
    add_reference_edge (add_reference_edge rg callee caller) callee caller
      = add_reference_edge rg callee caller
    ∧ assocGet (add_reference_edge rg callee caller) callee
      = (if caller ∈ assocGet rg callee then assocGet rg callee
         else assocGet rg callee ++ [caller])
    ∧ assocGet ((fun g => add_call_edge g key v)^[n] cg) key
      = assocGet cg key ++ List.replicate n v := by
  refine ⟨?_, ?_, ?_⟩
  · by_cases h : caller ∈ assocGet rg callee
    · have e1 : add_reference_edge rg callee caller = rg := if_pos h
      rw [e1, e1]
    · have e1 : add_reference_edge rg callee caller = assocAppend rg callee caller :=
        if_neg h
      have h2 : caller ∈ assocGet (assocAppend rg callee caller) callee := by
        rw [assocGet_assocAppend]
        exact List.mem_append_right _ (List.mem_singleton_self caller)
      rw [e1]
      exact if_pos h2
  · by_cases h : caller ∈ assocGet rg callee
    · simp [add_reference_edge, h]
    · simp [add_reference_edge, h, assocGet_assocAppend]
  · induction n with
    | zero => simp
    | succ m ih =>
      rw [Function.iterate_succ_apply']
      show assocGet (assocAppend ((fun g => add_call_edge g key v)^[m] cg) key v) key = _
      rw [assocGet_assocAppend, ih]
      simp [List.replicate_succ', List.append_assoc]

/-! ## Claim C5 -/

/-- Claim C5: `@ depth n` is a usage-message no-op unless
`0 < n < g_max_print_depth`, in which case it sets the soft depth to `n`. -/
theorem claim5_depth_command (cur hard n : Int) :
    ((n ≤ 0 ∨ hard ≤ n) → depth_command cur hard n = (cur, true))
    ∧ (0 < n → n < hard → depth_command cur hard n = (n, false)) := by
  constructor
  · intro h
    unfold depth_command
    rw [if_pos h]
  · intro h1 h2
    unfold depth_command
    rw [if_neg (by omega)]

/-- Witness for `claim5_depth_command` at the default limits. -/
theorem claim5_witness :
    depth_command 15 15 0 = (15, true)
    ∧ depth_command 15 15 20 = (15, true)
    ∧ depth_command 15 15 7 = (7, false) :=
  ⟨(claim5_depth_command 15 15 0).1 (Or.inl (by decide)),
   (claim5_depth_command 15 15 20).1 (Or.inr (by decide)),
   (claim5_depth_command 15 15 7).2 (by decide) (by decide)⟩

/-! ## Claim C7 -/

/-- Claim C7: of a compilation-database entry's arguments exactly those
starting with `-I`, `-std=` or `-D` are kept, and the user-supplied clang
arguments are appended after that filtered set. -/
theorem claim7_keep_args (arguments clang_args : List String) :
    build_parse_args arguments clang_args = arguments.filter keep_arg ++ clang_args
    ∧ (∀ x : String, keep_arg x = true ↔
        (strStartsWith x "-I" = true ∨ strStartsWith x "-std=" = true
          ∨ strStartsWith x "-D" = true))
    ∧ (∀ x : String, x ∈ build_parse_args arguments clang_args ↔
        ((x ∈ arguments ∧ keep_arg x = true) ∨ x ∈ clang_args)) := by
  refine ⟨rfl, ?_, ?_⟩
  · intro x
    simp [keep_arg, or_assoc]
  · intro x
    simp [build_parse_args, List.mem_filter]

/-! ## Claim C9 -/

/-- Claim C9: an exception raised at any point while the query body runs
means the buffered lines are discarded by the handler's `buffer_clear` and
nothing is flushed — the query prints no partial output and leaves the
buffer empty. -/
theorem claim9_fault_discards_buffer (events : List QEvent) (buf : List String)
    (h : QEvent.fault ∈ events) :
    ask_and_print_callgraph events buf = ([], []) := by
  have key : ∀ (es : List QEvent) (b : List String),
      QEvent.fault ∈ es → (run_events es b).2 = true := by
    intro es
    induction es with
    | nil => intro b hb; cases hb
    | cons e rest ih =>
      intro b hb
      cases e with
      | append s =>
        have hr : QEvent.fault ∈ rest := by
          rcases List.mem_cons.mp hb with h1 | h1
          · cases h1
          · exact h1
        simpa [run_events] using ih (b ++ [s]) hr
      | fault => simp [run_events]
  have hk := key events buf h
  simp [ask_and_print_callgraph, hk]

/-- Witness for `claim9_fault_discards_buffer` on a query that renders one
line and then raises. -/
theorem claim9_witness :
    QEvent.fault ∈ [QEvent.append "line", QEvent.fault]
    ∧ ask_and_print_callgraph [QEvent.append "line", QEvent.fault] [] = ([], []) :=
  ⟨by decide,
   claim9_fault_discards_buffer [QEvent.append "line", QEvent.fault] [] (by decide)⟩

/-! ## Claim C10 -/

/-- The scanning loop only extends `excluded_paths` from a `-p` flag: with
no `-p` among the arguments the accumulated list is returned unchanged. -/
theorem read_args_loop_paths :
    ∀ (fuel : Nat) (args : List String), args.length ≤ fuel → "-p" ∉ args →
      ∀ (cfg0 cfg : Cfg), read_args_loop args cfg0 = some cfg →
        cfg.excluded_paths = cfg0.excluded_paths := by
  intro fuel
  induction fuel with
  | zero =>
    intro args hlen _ cfg0 cfg h
    match args with
    | [] => cases h; rfl
  | succ m ih =>
    intro args hlen hp cfg0 cfg h
    cases args with
    | nil => cases h; rfl
    | cons a rest =>
      have hpa : ¬a = "-p" := fun he => hp (he ▸ List.mem_cons_self a rest)
      have hpr : "-p" ∉ rest := fun hm => hp (List.mem_cons_of_mem a hm)
      have hlen2 : rest.length ≤ m := by
        simpa using Nat.le_of_succ_le_succ hlen
      rw [read_args_loop.eq_def] at h
      by_cases h1 : a = "-x"
      · simp only [h1] at h
        simp at h
        cases rest with
        | nil => simp at h
        | cons v rest2 =>
          have hpr2 : "-p" ∉ rest2 := fun hm => hpr (List.mem_cons_of_mem v hm)
          have hlen3 : rest2.length ≤ m := by
            have : rest2.length + 1 ≤ m := by simpa using hlen2
            omega
          have h2 : read_args_loop rest2
              { cfg0 with excluded_prefs := cfg0.excluded_prefs ++ v.splitOn "," } = some cfg := h
          exact ih rest2 hlen3 hpr2 { cfg0 with excluded_prefs := cfg0.excluded_prefs ++ v.splitOn "," } cfg h2
      · by_cases h3 : a = "--cfg"
        · simp only [h3] at h
          simp at h
          cases rest with
          | nil => simp at h
          | cons v rest2 =>
            have hpr2 : "-p" ∉ rest2 := fun hm => hpr (List.mem_cons_of_mem v hm)
            have hlen3 : rest2.length ≤ m := by
              have : rest2.length + 1 ≤ m := by simpa using hlen2
              omega
            have h2 : read_args_loop rest2 { cfg0 with config_filename := v } = some cfg := h
            exact ih rest2 hlen3 hpr2 { cfg0 with config_filename := v } cfg h2
        · by_cases h4 : a = "--lookup"
          · simp only [h4] at h
            simp at h
            cases rest with
            | nil => simp at h
            | cons v rest2 =>
              have hpr2 : "-p" ∉ rest2 := fun hm => hpr (List.mem_cons_of_mem v hm)
              have hlen3 : rest2.length ≤ m := by
                have : rest2.length + 1 ≤ m := by simpa using hlen2
                omega
              have h2 : read_args_loop rest2 { cfg0 with lookup := v } = some cfg := h
              exact ih rest2 hlen3 hpr2 { cfg0 with lookup := v } cfg h2
          · by_cases h5 : a = "--library_path"
            · simp only [h5] at h
              simp at h
              cases rest with
              | nil => simp at h
              | cons v rest2 =>
                have hpr2 : "-p" ∉ rest2 := fun hm => hpr (List.mem_cons_of_mem v hm)
                have hlen3 : rest2.length ≤ m := by
                  have : rest2.length + 1 ≤ m := by simpa using hlen2
                  omega
                have h2 : read_args_loop rest2 { cfg0 with library_path := v } = some cfg := h
                exact ih rest2 hlen3 hpr2 { cfg0 with library_path := v } cfg h2
            · simp only [if_neg h1, if_neg hpa, if_neg h3, if_neg h4, if_neg h5] at h
              cases hd : a.data with
              | nil => rw [hd] at h; cases h
              | cons c cs =>
                rw [hd] at h
                have hif : (if c = '-' then
                    read_args_loop rest { cfg0 with clang_args := cfg0.clang_args ++ [a] }
                  else read_args_loop rest { cfg0 with db := some a }) = some cfg := h
                by_cases hc : c = '-'
                · rw [if_pos hc] at hif
                  exact ih rest hlen2 hpr { cfg0 with clang_args := cfg0.clang_args ++ [a] } cfg hif
                · rw [if_neg hc] at hif
                  exact ih rest hlen2 hpr { cfg0 with db := some a } cfg hif

/-- Claim C10: with no `-p` argument the excluded-path list defaults to
exactly `['/usr']`, and every declaration whose file path starts with
`/usr` is then excluded by the path rule. -/
theorem claim10_default_usr (cwd_has_db : Bool) (args : List String) (cfg : Cfg)
    (hp : "-p" ∉ args) (h : read_args cwd_has_db args = some cfg) :
    cfg.excluded_paths = ["/usr"]
    ∧ ∀ (node : Cursor) (f : String) (xprefs : List String),
        cursor_file node = some f → strStartsWith f "/usr" = true →
        is_excluded node cfg.excluded_paths xprefs = true := by
  have hpaths : cfg.excluded_paths = ["/usr"] := by
    unfold read_args at h
    cases hloop : read_args_loop args ⟨none, [], [], [], "", "", ""⟩ with
    | none => rw [hloop] at h; cases h
    | some cfg1 =>
      rw [hloop] at h
      have h1 : cfg1.excluded_paths = [] :=
        read_args_loop_paths args.length args le_rfl hp _ _ hloop
      simp only [h1, List.nil_append, eq_self_iff_true, if_true] at h
      split at h
      all_goals
        have h2 := Option.some.inj h
      all_goals rw [← h2]
  refine ⟨hpaths, ?_⟩
  intro node f xprefs hfile hpre
  rw [hpaths]
  unfold is_excluded
  rw [hfile]
  have hany : (["/usr"].any fun xf => strStartsWith f xf) = true := by
    simp [hpre]
  simp [hany]

/-- Witness for `claim10_default_usr`: a run on a single source-file
argument, and a node declared under `/usr/include`. -/
theorem claim10_witness :
    ("-p" ∉ ["a.cpp"])
    ∧ Cfg.excluded_paths ⟨some "a.cpp", [], [], ["/usr"], "", "", ""⟩ = ["/usr"]
    ∧ is_excluded [⟨CursorKind.function_decl, "u", "u()", false, false,
          some "/usr/include/x.h"⟩]
        (Cfg.excluded_paths ⟨some "a.cpp", [], [], ["/usr"], "", "", ""⟩) [] = true := by
  refine ⟨by decide, ?_, ?_⟩
  · exact (claim10_default_usr false ["a.cpp"] _ (by decide) (by decide)).1
  · exact (claim10_default_usr false ["a.cpp"] _ (by decide) (by decide)).2
      [⟨CursorKind.function_decl, "u", "u()", false, false, some "/usr/include/x.h"⟩]
      "/usr/include/x.h" [] (by decide) (by decide)

/-! ## Claim C4 -/

/-- Claim C4, counterexample: with the default limits
(`g_print_depth = g_max_print_depth = 15`) a 16-deep call chain drives the
recursion to the hard depth limit, yet the output contains no
`...<too deep>...` marker — the soft-limit check runs first and returns
silently.  The traversal stops after 15 rendered lines and 15 visited
nodes; the sixteenth callee is never reached. -/
theorem claim4_counterexample :
    (print_calls chainGraph 15 15 17 "f0" ([], []) 0).map
      (fun st => (st.1.length, st.1.contains tooDeepMarker, st.2.length))
    = some (15, false, 15) := by
  decide

/-- Claim C4 as amended: in every traversal, reaching the soft depth limit
stops the recursion silently with the state unchanged; the explicit
`...<too deep>...` marker is emitted (and recursion stops) only when the
depth reaches the hard limit while still below the soft limit — which
cannot happen while the soft limit stays at most the hard limit, as the
program's depth command guarantees. -/
theorem claim4_amended (g : List (String × List Cursor))
    (rg : List (String × List String)) (fs ig : List String)
    (soft hard fuel : Nat) (name : String) (st : TravSt) (rst : RefSt) (fst : FiltSt)
    (depth : Nat) :
    (soft ≤ depth →
      print_calls g soft hard (fuel + 1) name st depth = some st
      ∧ print_refs rg soft hard (fuel + 1) name rst depth = some rst
      ∧ filter_calls g fs soft hard (fuel + 1) name fst depth = some fst
      ∧ ignore_calls g ig soft hard (fuel + 1) name st depth = some st)
    ∧ (depth < soft → hard ≤ depth →
      print_calls g soft hard (fuel + 1) name st depth
          = some (st.1 ++ [tooDeepMarker], st.2)
      ∧ print_refs rg soft hard (fuel + 1) name rst depth
          = some (rst.1 ++ [tooDeepMarker], rst.2)
      ∧ filter_calls g fs soft hard (fuel + 1) name fst depth
          = some (fst.1 ++ [tooDeepMarker], fst.2)
      ∧ ignore_calls g ig soft hard (fuel + 1) name st depth
          = some (st.1 ++ [tooDeepMarker], st.2)) := by
  constructor
  · intro h1
    refine ⟨?_, ?_, ?_, ?_⟩ <;>
      simp only [print_calls, print_refs, filter_calls, ignore_calls, if_pos h1]
  · intro h1 h2
    refine ⟨?_, ?_, ?_, ?_⟩ <;>
      simp only [print_calls, print_refs, filter_calls, ignore_calls,
        if_neg (Nat.not_le.mpr h1), if_pos h2]

/-- Witness for `claim4_amended`: the silent stop at the soft limit with
`soft = hard = 15`, and the marker stop in the only reachable shape
`hard < soft`. -/
theorem claim4_witness :
    (print_calls [] 15 15 1 "f" ([], []) 15 = some ([], [])
      ∧ print_refs [] 15 15 1 "f" ([], []) 15 = some ([], [])
      ∧ filter_calls [] [] 15 15 1 "f" ([], [], []) 15 = some ([], [], [])
      ∧ ignore_calls [] [] 15 15 1 "f" ([], []) 15 = some ([], []))
    ∧ (print_calls [] 9 3 1 "f" ([], []) 5 = some ([tooDeepMarker], [])
      ∧ print_refs [] 9 3 1 "f" ([], []) 5 = some ([tooDeepMarker], [])
      ∧ filter_calls [] [] 9 3 1 "f" ([], [], []) 5 = some ([tooDeepMarker], [], [])
      ∧ ignore_calls [] [] 9 3 1 "f" ([], []) 5 = some ([tooDeepMarker], [])) :=
  ⟨(claim4_amended [] [] [] [] 15 15 0 "f" ([], []) ([], []) ([], [], []) 15).1
      (by decide),
   (claim4_amended [] [] [] [] 9 3 0 "f" ([], []) ([], []) ([], [], []) 5).2
      (by decide) (by decide)⟩

/-! ## Claim C6 -/

/-- The callee loop succeeds whenever the recursive call at the next depth
always succeeds. -/
theorem callsLoop_isSome (g : List (String × List Cursor))
    (rec : String → TravSt → Nat → Option TravSt) (depth : Nat)
    (hrec : ∀ (name : String) (st2 : TravSt), (rec name st2 (depth + 1)).isSome = true) :
    ∀ (l : List Cursor) (st : TravSt), (callsLoop g rec l st depth).isSome = true := by
  intro l
  induction l with
  | nil => intro st; simp [callsLoop]
  | cons f rest ih =>
    intro st
    obtain ⟨buf, vis⟩ := st
    simp only [callsLoop]
    by_cases hf : f ∈ vis
    · rw [if_pos hf]
      exact ih _
    · rw [if_neg hf]
      obtain ⟨st2, hst2⟩ := Option.isSome_iff_exists.mp (hrec _ _)
      rw [hst2]
      exact ih _

/-- `print_calls` terminates — it returns a result, never exhausting any
fuel exceeding the remaining soft-depth budget, on every graph including
cyclic ones. -/
theorem print_calls_isSome (g : List (String × List Cursor)) (soft hard : Nat) :
    ∀ (fuel : Nat) (name : String) (st : TravSt) (depth : Nat),
      soft - depth < fuel → (print_calls g soft hard fuel name st depth).isSome = true := by
  intro fuel
  induction fuel with
  | zero => intro name st depth h; omega
  | succ m ih =>
    intro name st depth h
    simp only [print_calls]
    by_cases h1 : soft ≤ depth
    · rw [if_pos h1]; rfl
    · rw [if_neg h1]
      by_cases h2 : hard ≤ depth
      · rw [if_pos h2]; rfl
      · rw [if_neg h2]
        by_cases h3 : gMem g name = true
        · rw [if_pos h3]
          exact callsLoop_isSome g _ depth (fun name2 st2 => ih name2 st2 (depth + 1) (by omega)) _ st
        · rw [if_neg h3]; rfl

/-- The callee loop only extends the visited list, and preserves its
freedom from duplicates: a node is appended exactly when it is recursed
into, and only if it is not already present. -/
theorem callsLoop_vis (g : List (String × List Cursor))
    (rec : String → TravSt → Nat → Option TravSt) (depth : Nat)
    (hrec : ∀ (name : String) (st2 st3 : TravSt), rec name st2 (depth + 1) = some st3 →
      st2.2 <+: st3.2 ∧ (st2.2.Nodup → st3.2.Nodup)) :
    ∀ (l : List Cursor) (st st' : TravSt), callsLoop g rec l st depth = some st' →
      st.2 <+: st'.2 ∧ (st.2.Nodup → st'.2.Nodup) := by
  intro l
  induction l with
  | nil =>
    intro st st' h
    simp only [callsLoop, Option.some.injEq] at h
    rw [← h]
    exact ⟨List.prefix_refl _, id⟩
  | cons f rest ih =>
    intro st st' h
    obtain ⟨buf, vis⟩ := st
    simp only [callsLoop] at h
    by_cases hf : f ∈ vis
    · rw [if_pos hf] at h
      exact ih (buf ++ [renderCallLine depth f], vis) st' h
    · rw [if_neg hf] at h
      cases hrc : rec (if gMem g (fully_qualified_pretty f) = true then fully_qualified_pretty f
          else fully_qualified f) (buf ++ [renderCallLine depth f], vis ++ [f]) (depth + 1) with
      | none => rw [hrc] at h; cases h
      | some st2 =>
        rw [hrc] at h
        have h1 := hrec _ _ _ hrc
        have h2 := ih _ _ h
        constructor
        · exact ((vis.prefix_append [f]).trans h1.1).trans h2.1
        · intro hnd
          apply h2.2
          apply h1.2
          simp [List.nodup_append, hnd, hf]

/-- `print_calls` only extends the per-traversal visited list and keeps it
duplicate-free. -/
theorem print_calls_vis (g : List (String × List Cursor)) (soft hard : Nat) :
    ∀ (fuel : Nat) (name : String) (st st' : TravSt) (depth : Nat),
      print_calls g soft hard fuel name st depth = some st' →
      st.2 <+: st'.2 ∧ (st.2.Nodup → st'.2.Nodup) := by
  intro fuel
  induction fuel with
  | zero => intro name st st' depth h; cases h
  | succ m ih =>
    intro name st st' depth h
    simp only [print_calls] at h
    by_cases h1 : soft ≤ depth
    · rw [if_pos h1] at h
      cases h
      exact ⟨List.prefix_refl _, id⟩
    · rw [if_neg h1] at h
      by_cases h2 : hard ≤ depth
      · rw [if_pos h2] at h
        cases h
        exact ⟨List.prefix_refl _, id⟩
      · rw [if_neg h2] at h
        by_cases h3 : gMem g name = true
        · rw [if_pos h3] at h
          exact callsLoop_vis g _ depth (fun n2 s2 s3 hh => ih n2 s2 s3 (depth + 1) hh) _ _ _ h
        · rw [if_neg h3] at h
          cases h
          exact ⟨List.prefix_refl _, id⟩

/-- Claim C6: on every call graph — cyclic ones included — a `Direct`
traversal from an empty visited list terminates (any fuel above the soft
depth limit suffices, so the recursion never runs away regardless of the
configured limit), and the visited list it produces contains each callee
node at most once: a node is recursed into only on its first visit. -/
theorem claim6_cycle_terminates (g : List (String × List Cursor))
    (soft hard fuel : Nat) (name : String) (h : soft < fuel) :
    ∃ st : TravSt, print_calls g soft hard fuel name ([], []) 0 = some st
      ∧ st.2.Nodup := by
  have h1 := print_calls_isSome g soft hard fuel name ([], []) 0 (by omega)
  obtain ⟨st, hst⟩ := Option.isSome_iff_exists.mp h1
  exact ⟨st, hst,
    (print_calls_vis g soft hard fuel name ([], []) st 0 hst).2 List.nodup_nil⟩

/-- Witness for `claim6_cycle_terminates`: the mutual recursion
`A calls B, B calls A` under the default depth limit 15, which exceeds the
cycle length. -/
theorem claim6_witness :
    15 < 16
    ∧ ∃ st : TravSt, print_calls cycleGraph 15 15 16 "A" ([], []) 0 = some st
        ∧ st.2.Nodup :=
  ⟨by decide, claim6_cycle_terminates cycleGraph 15 15 16 "A" (by decide)⟩

/-! ## Claim C8 -/

/-- Claim C8, counterexample: the ignore test runs on the cursor's own
`displayname`, not on the qualified display name.  With ignore keyword
`ns::` the callee `ns::foo(int)` — whose display name contains `ns::` —
is still rendered, recursed into and added to the visited list. -/
theorem claim8_counterexample :
    ignore_calls [("f", [nsNode])] ["ns::"] 15 15 16 "f" ([], []) 0
      = some ([renderCallLine 0 nsNode], [nsNode])
    ∧ strContains (fully_qualified_pretty nsNode) "ns::" = true
    ∧ strContains (pretty_print nsNode) "ns::" = true := by
  refine ⟨by decide, by decide, by decide⟩

/-- The ignore loop body: every node left in the visited list and every
line left in the buffer either was there already or stems from a callee
whose `displayname` avoids every ignore keyword (the depth marker line
excepted). -/
theorem ignoreLoop_inv (g : List (String × List Cursor)) (ig : List String)
    (rec : String → TravSt → Nat → Option TravSt) (depth : Nat)
    (hrec : ∀ (name : String) (st2 st3 : TravSt), rec name st2 (depth + 1) = some st3 →
      (∀ f ∈ st3.2, f ∈ st2.2 ∨ hitKeyword ig f = false)
      ∧ (∀ x ∈ st3.1, x ∈ st2.1 ∨ x = tooDeepMarker
          ∨ ∃ (d : Nat) (f2 : Cursor), hitKeyword ig f2 = false ∧ x = renderCallLine d f2)) :
    ∀ (l : List Cursor) (st st' : TravSt), ignoreLoop g ig rec l st depth = some st' →
      (∀ f ∈ st'.2, f ∈ st.2 ∨ hitKeyword ig f = false)
      ∧ (∀ x ∈ st'.1, x ∈ st.1 ∨ x = tooDeepMarker
          ∨ ∃ (d : Nat) (f2 : Cursor), hitKeyword ig f2 = false ∧ x = renderCallLine d f2) := by
  intro l
  induction l with
  | nil =>
    intro st st' h
    simp only [ignoreLoop, Option.some.injEq] at h
    rw [← h]
    exact ⟨fun f hf => Or.inl hf, fun x hx => Or.inl hx⟩
  | cons f rest ih =>
    intro st st' h
    obtain ⟨buf, vis⟩ := st
    simp only [ignoreLoop] at h
    by_cases hig : hitKeyword ig f = true
    · rw [if_pos hig] at h
      exact ih (buf, vis) st' h
    · rw [if_neg hig] at h
      have hignf : hitKeyword ig f = false := by
        cases hh : hitKeyword ig f
        · rfl
        · exact absurd hh hig
      by_cases hf : f ∈ vis
      · rw [if_pos hf] at h
        have hres := ih (buf ++ [renderCallLine depth f], vis) st' h
        refine ⟨hres.1, ?_⟩
        intro x hx
        rcases hres.2 x hx with hx1 | hx1 | hx1
        · rcases List.mem_append.mp hx1 with hx2 | hx2
          · exact Or.inl hx2
          · exact Or.inr (Or.inr ⟨depth, f, hignf, List.mem_singleton.mp hx2⟩)
        · exact Or.inr (Or.inl hx1)
        · exact Or.inr (Or.inr hx1)
      · rw [if_neg hf] at h
        cases hrc : rec (if gMem g (fully_qualified_pretty f) = true
            then fully_qualified_pretty f else fully_qualified f)
            (buf ++ [renderCallLine depth f], vis ++ [f]) (depth + 1) with
        | none => rw [hrc] at h; cases h
        | some st2 =>
          rw [hrc] at h
          have h1 := hrec _ _ _ hrc
          have h2 := ih st2 st' h
          constructor
          · intro x hx
            rcases h2.1 x hx with hx1 | hx1
            · rcases h1.1 x hx1 with hx2 | hx2
              · rcases List.mem_append.mp hx2 with hx3 | hx3
                · exact Or.inl hx3
                · right
                  rw [List.mem_singleton.mp hx3]
                  exact hignf
              · exact Or.inr hx2
            · exact Or.inr hx1
          · intro x hx
            rcases h2.2 x hx with hx1 | hx1 | hx1
            · rcases h1.2 x hx1 with hx2 | hx2 | hx2
              · rcases List.mem_append.mp hx2 with hx3 | hx3
                · exact Or.inl hx3
                · exact Or.inr (Or.inr ⟨depth, f, hignf, List.mem_singleton.mp hx3⟩)
              · exact Or.inr (Or.inl hx2)
              · exact Or.inr (Or.inr hx2)
            · exact Or.inr (Or.inl hx1)
            · exact Or.inr (Or.inr hx1)

/-- Claim C8 as amended: the `WithoutKeywords` traversal never emits a
line for, never recurses into, and never adds to the visited list any
callee whose own `displayname` (the cursor's unqualified signature — not
the qualified display name) contains a configured ignore keyword: every
visited node and every emitted line other than the depth marker stems from
a callee free of ignore keywords. -/
theorem claim8_amended (g : List (String × List Cursor)) (ig : List String)
    (soft hard fuel : Nat) (name : String) (st st' : TravSt) (depth : Nat)
    (h : ignore_calls g ig soft hard fuel name st depth = some st') :
    (∀ f ∈ st'.2, f ∈ st.2 ∨ hitKeyword ig f = false)
    ∧ (∀ x ∈ st'.1, x ∈ st.1 ∨ x = tooDeepMarker
        ∨ ∃ (d : Nat) (f2 : Cursor), hitKeyword ig f2 = false
            ∧ x = renderCallLine d f2) := by
  induction fuel generalizing name st st' depth with
  | zero => cases h
  | succ m ih =>
    simp only [ignore_calls] at h
    by_cases h1 : soft ≤ depth
    · rw [if_pos h1] at h
      cases h
      exact ⟨fun f hf => Or.inl hf, fun x hx => Or.inl hx⟩
    · rw [if_neg h1] at h
      by_cases h2 : hard ≤ depth
      · rw [if_pos h2] at h
        cases h
        refine ⟨fun f hf => Or.inl hf, ?_⟩
        intro x hx
        rcases List.mem_append.mp hx with hx1 | hx1
        · exact Or.inl hx1
        · exact Or.inr (Or.inl (List.mem_singleton.mp hx1))
      · rw [if_neg h2] at h
        by_cases h3 : gMem g name = true
        · rw [if_pos h3] at h
          exact ignoreLoop_inv g ig _ depth
            (fun n2 s2 s3 hh => ih n2 s2 s3 (depth + 1) hh) _ _ _ h
        · rw [if_neg h3] at h
          cases h
          exact ⟨fun f hf => Or.inl hf, fun x hx => Or.inl hx⟩

/-- Witness for `claim8_amended`: a graph with one ignored callee
(`bad()`) and one kept callee (`good()`); the conclusion is established for
the concrete traversal result, whose visited list and buffer hold only the
kept callee. -/
theorem claim8_witness :
    (∀ f2 ∈ [okNode], f2 ∈ ([] : List Cursor) ∨ hitKeyword ["bad"] f2 = false)
    ∧ (∀ x ∈ [renderCallLine 0 okNode], x ∈ ([] : List String) ∨ x = tooDeepMarker
        ∨ ∃ (d : Nat) (f2 : Cursor), hitKeyword ["bad"] f2 = false
            ∧ x = renderCallLine d f2) :=
  claim8_amended [("f", [badNode, okNode])] ["bad"] 15 15 16 "f" ([], [])
    ([renderCallLine 0 okNode], [okNode]) 0 (by decide)

/-- Witness for `claim7_keep_args`: a concrete compilation-database entry
with a warning flag dropped and the user flag appended last. -/
theorem claim7_witness :
    build_parse_args ["-Wall", "-I/x", "-std=c11", "-DFOO", "a.c"] ["-O2"]
      = ["-I/x", "-std=c11", "-DFOO", "-O2"] := by
  rw [(claim7_keep_args ["-Wall", "-I/x", "-std=c11", "-DFOO", "a.c"] ["-O2"]).1]
  decide
